import Mathlib

/-!
Shallow embedding of `src/core/plugins/PluginManager.ts`.

The coordinator's state is a list of `ClaudianPlugin` records plus a set of
enabled plugin ids.  JS `Set<string>` is modelled as an insertion-ordered
duplicate-free list of strings, matching `new Set`, `Set.prototype.add`,
`Set.prototype.delete` and `Array.from` semantics.  The asynchronous
`loadPlugins()` takes the registry snapshot (`storage.loadPlugins()`) as an
explicit argument.  `String.prototype.localeCompare` is modelled as code-point
lexicographic three-way comparison.
-/

structure ClaudianPlugin where
  id : String
  name : String
  pluginPath : String
  installPath : String
  enabled : Bool
  status : String
  deriving Repr, DecidableEq

structure SdkPluginConfig where
  type : String
  path : String
  deriving Repr, DecidableEq

structure PluginCommandPath where
  pluginName : String
  commandsPath : String
  deriving Repr, DecidableEq

/-- `Set.prototype.add`: appends the element unless already present. -/
def jsSetAdd (s : List String) (x : String) : List String :=
  if x ∈ s then s else s ++ [x]

/-- `Set.prototype.delete`: removes the element if present. -/
def jsSetDelete (s : List String) (x : String) : List String :=
  s.filter (fun y => y ≠ x)

/-- `new Set(ids)`: keeps the first occurrence of each element, in order. -/
def jsSetOfList (ids : List String) : List String :=
  ids.foldl jsSetAdd []

/-- The `PluginManager` class fields `plugins` and `enabledPluginIds`
(the `storage` collaborator is passed to `loadPlugins` explicitly). -/
structure PluginManager where
  plugins : List ClaudianPlugin
  enabledPluginIds : List String
  deriving Repr, DecidableEq

/-- The freshly constructed coordinator: no plugins, empty enabled set. -/
def PluginManager.emptyManager : PluginManager := ⟨[], []⟩

/-- `getActivePlugins()`: plugins that are both enabled and available. -/
def PluginManager.getActivePlugins (m : PluginManager) : List ClaudianPlugin :=
  m.plugins.filter (fun plugin => plugin.enabled && plugin.status == "available")

/-- `setEnabledPluginIds(ids)`: replaces the enabled-id set and re-stamps the
`enabled` flag on every loaded plugin. -/
def PluginManager.setEnabledPluginIds (m : PluginManager) (ids : List String) : PluginManager :=
  let s := jsSetOfList ids
  { plugins := m.plugins.map (fun plugin => { plugin with enabled := s.contains plugin.id }),
    enabledPluginIds := s }

/-- `loadPlugins()`: replaces the stored list with the registry snapshot
`loaded` and applies the enabled state from the enabled-id set. -/
def PluginManager.loadPlugins (m : PluginManager) (loaded : List ClaudianPlugin) : PluginManager :=
  { plugins := loaded.map
      (fun plugin => { plugin with enabled := m.enabledPluginIds.contains plugin.id }),
    enabledPluginIds := m.enabledPluginIds }

/-- `getPlugins()`: the stored list (the source returns a spread copy;
aliasing is treated in the heap model below). -/
def PluginManager.getPlugins (m : PluginManager) : List ClaudianPlugin :=
  m.plugins

/-- `getActivePluginConfigs()`. -/
def PluginManager.getActivePluginConfigs (m : PluginManager) : List SdkPluginConfig :=
  m.getActivePlugins.map (fun plugin => { type := "local", path := plugin.pluginPath })

/-- `getUnavailableEnabledPlugins()`. -/
def PluginManager.getUnavailableEnabledPlugins (m : PluginManager) : List String :=
  (m.plugins.filter (fun plugin => plugin.enabled && plugin.status != "available")).map
    (fun plugin => plugin.id)

/-- `hasEnabledPlugins()`. -/
def PluginManager.hasEnabledPlugins (m : PluginManager) : Bool :=
  m.getActivePlugins.length > 0

/-- `getEnabledCount()`. -/
def PluginManager.getEnabledCount (m : PluginManager) : Nat :=
  m.getActivePlugins.length

/-- Model of `a.localeCompare(b)`: code-point lexicographic three-way
comparison (default-locale collation modelled as code-point order). -/
def localeCompare (a b : String) : Int :=
  if a < b then -1 else if b < a then 1 else 0

/-- The comparator `(a, b) => a.id.localeCompare(b.id)` of the `sort` call in
`getPluginsKey`, as the "a precedes-or-ties b" test of a stable sort. -/
def idLe (a b : ClaudianPlugin) : Bool :=
  localeCompare a.id b.id ≤ 0

/-- `Array.prototype.join(sep)`. -/
def joinWith (sep : String) : List String → String
  | [] => ""
  | [x] => x
  | x :: y :: xs => x ++ sep ++ joinWith sep (y :: xs)

/-- `getPluginsKey()`: sort the active plugins by id, render `id:pluginPath`
entries joined with `|`; empty active set gives the empty string. -/
def PluginManager.getPluginsKey (m : PluginManager) : String :=
  let activePlugins := m.getActivePlugins.mergeSort idLe
  if activePlugins.length = 0 then ""
  else joinWith "|" (activePlugins.map (fun plugin => plugin.id ++ ":" ++ plugin.pluginPath))

/-- `plugin.enabled = e` applied to the object returned by
`this.plugins.find((p) => p.id === pluginId)`: the in-place mutation touches
exactly the first list entry whose id matches. -/
def setEnabledAtFirstMatch : List ClaudianPlugin → String → Bool → List ClaudianPlugin
  | [], _, _ => []
  | p :: ps, pluginId, e =>
    if p.id == pluginId then { p with enabled := e } :: ps
    else p :: setEnabledAtFirstMatch ps pluginId e

/-- `togglePlugin(pluginId)`: returns the updated coordinator state and the
`Array.from(this.enabledPluginIds)` result. -/
def PluginManager.togglePlugin (m : PluginManager) (pluginId : String) :
    PluginManager × List String :=
  match m.plugins.find? (fun p => p.id == pluginId) with
  | none => (m, m.enabledPluginIds)
  | some plugin =>
    if plugin.enabled then
      let s := jsSetDelete m.enabledPluginIds pluginId
      ({ plugins := setEnabledAtFirstMatch m.plugins pluginId false, enabledPluginIds := s }, s)
    else
      let s := jsSetAdd m.enabledPluginIds pluginId
      ({ plugins := setEnabledAtFirstMatch m.plugins pluginId true, enabledPluginIds := s }, s)

/-- `enablePlugin(pluginId)`. -/
def PluginManager.enablePlugin (m : PluginManager) (pluginId : String) :
    PluginManager × List String :=
  match m.plugins.find? (fun p => p.id == pluginId) with
  | some plugin =>
    if !plugin.enabled then
      let s := jsSetAdd m.enabledPluginIds pluginId
      ({ plugins := setEnabledAtFirstMatch m.plugins pluginId true, enabledPluginIds := s }, s)
    else (m, m.enabledPluginIds)
  | none => (m, m.enabledPluginIds)

/-- `disablePlugin(pluginId)`. -/
def PluginManager.disablePlugin (m : PluginManager) (pluginId : String) :
    PluginManager × List String :=
  match m.plugins.find? (fun p => p.id == pluginId) with
  | some plugin =>
    if plugin.enabled then
      let s := jsSetDelete m.enabledPluginIds pluginId
      ({ plugins := setEnabledAtFirstMatch m.plugins pluginId false, enabledPluginIds := s }, s)
    else (m, m.enabledPluginIds)
  | none => (m, m.enabledPluginIds)

/-- `hasPlugins()`. -/
def PluginManager.hasPlugins (m : PluginManager) : Bool :=
  m.plugins.length > 0

/-- `getPluginCommandPaths()`. -/
def PluginManager.getPluginCommandPaths (m : PluginManager) : List PluginCommandPath :=
  m.getActivePlugins.map
    (fun plugin => { pluginName := plugin.name, commandsPath := plugin.installPath })

/-- One mutating call of the coordinator's public interface. -/
inductive PMCall where
  | setIds (ids : List String)
  | load (loaded : List ClaudianPlugin)
  | toggle (pluginId : String)
  | enable (pluginId : String)
  | disable (pluginId : String)
  deriving Repr, DecidableEq

/-- Execute one call against the state (return values of toggle/enable/disable
are dropped; only the state transition remains). -/
def PluginManager.applyCall (m : PluginManager) : PMCall → PluginManager
  | .setIds ids => m.setEnabledPluginIds ids
  | .load loaded => m.loadPlugins loaded
  | .toggle pluginId => (m.togglePlugin pluginId).1
  | .enable pluginId => (m.enablePlugin pluginId).1
  | .disable pluginId => (m.disablePlugin pluginId).1

/-- Execute a sequence of calls in order. -/
def PluginManager.run (m : PluginManager) (calls : List PMCall) : PluginManager :=
  calls.foldl PluginManager.applyCall m

/-- The enabled/membership coupling invariant: every loaded plugin's `enabled`
flag equals membership of its id in the enabled-id set. -/
def EnabledMatchesSet (m : PluginManager) : Prop :=
  ∀ p ∈ m.plugins, p.enabled = m.enabledPluginIds.contains p.id

/-- The registry-source contract: plugin identifiers are unique in the list
the coordinator holds (spec §3, Plugin invariant). -/
def IdsNodup (m : PluginManager) : Prop :=
  (m.plugins.map (fun p => p.id)).Nodup

/-- A call sequence respects the registry contract when every load payload
has duplicate-free identifiers. -/
def callOk : PMCall → Prop
  | .load loaded => (loaded.map (fun p => p.id)).Nodup
  | _ => True

instance (c : PMCall) : Decidable (callOk c) :=
  match c with
  | .setIds _ => isTrue trivial
  | .load loaded =>
    inferInstanceAs (Decidable (List.Nodup (loaded.map (fun p : ClaudianPlugin => p.id))))
  | .toggle _ => isTrue trivial
  | .enable _ => isTrue trivial
  | .disable _ => isTrue trivial

instance (m : PluginManager) : Decidable (EnabledMatchesSet m) :=
  inferInstanceAs (Decidable (∀ p ∈ m.plugins, _))

instance (m : PluginManager) : Decidable (IdsNodup m) :=
  inferInstanceAs (Decidable (List.Nodup _))

/-- Spec-side fingerprint definition (spec §4.1 `getPluginsKey`): take the
active plugins, sort by identifier under the locale-aware comparison, map each
to `"<identifier>:<manifestPath>"`, join with `"|"` (the empty active set joins
to the empty string). -/
def getPluginsKeySpec (m : PluginManager) : String :=
  joinWith "|" ((m.getActivePlugins.mergeSort idLe).map
    (fun plugin => plugin.id ++ ":" ++ plugin.pluginPath))

/-!
Heap model of the JS array objects, for the aliasing behaviour of the query
methods: `filter` and the array spread allocate fresh arrays, `sort` mutates
its receiver in place.  Cells hold plugin lists and are indexed by reference.
-/

structure Heap where
  cells : List (List ClaudianPlugin)
  deriving Repr

/-- Dereference an array object. -/
def Heap.read (h : Heap) (r : Nat) : List ClaudianPlugin :=
  h.cells[r]?.getD []

/-- Allocate a fresh array object, returning the new heap and its reference. -/
def Heap.alloc (h : Heap) (a : List ClaudianPlugin) : Heap × Nat :=
  (⟨h.cells ++ [a]⟩, h.cells.length)

/-- In-place mutation of an existing array object. -/
def Heap.write (h : Heap) (r : Nat) (a : List ClaudianPlugin) : Heap :=
  ⟨h.cells.set r a⟩

/-- The coordinator under the heap model: the `plugins` field is a reference
to a heap-allocated array (the enabled-id set plays no part in the queries'
mutation behaviour and stays a value). -/
structure HPluginManager where
  pluginsRef : Nat
  enabledPluginIds : List String
  deriving Repr

/-- The stored-array reference points into the heap. -/
def Heap.validFor (h : Heap) (m : HPluginManager) : Prop :=
  m.pluginsRef < h.cells.length

instance (h : Heap) (m : HPluginManager) : Decidable (h.validFor m) :=
  inferInstanceAs (Decidable (_ < _))

/-- The pure-model state a heap state denotes. -/
def HPluginManager.denote (m : HPluginManager) (h : Heap) : PluginManager :=
  ⟨h.read m.pluginsRef, m.enabledPluginIds⟩

/-- `getActivePlugins()` heap-level: `this.plugins.filter(...)` reads the
stored array and allocates a fresh array for the filter result. -/
def hGetActivePlugins (h : Heap) (m : HPluginManager) : Heap × Nat :=
  h.alloc ((h.read m.pluginsRef).filter
    (fun plugin => plugin.enabled && plugin.status == "available"))

/-- `getPlugins()` heap-level: `[...this.plugins]` allocates a fresh copy of
the stored array. -/
def hGetPlugins (h : Heap) (m : HPluginManager) : Heap × Nat :=
  h.alloc (h.read m.pluginsRef)

/-- `getPluginsKey()` heap-level: `sort` writes its receiver in place — the
receiver being the fresh array `getActivePlugins` just allocated. -/
def hGetPluginsKey (h : Heap) (m : HPluginManager) : String × Heap :=
  let ar := hGetActivePlugins h m
  let h2 := ar.1.write ar.2 ((ar.1.read ar.2).mergeSort idLe)
  let activePlugins := h2.read ar.2
  (if activePlugins.length = 0 then ""
   else joinWith "|" (activePlugins.map (fun plugin => plugin.id ++ ":" ++ plugin.pluginPath)),
   h2)

/-- `getActivePluginConfigs()` heap-level (`map` allocates, writes nothing). -/
def hGetActivePluginConfigs (h : Heap) (m : HPluginManager) : List SdkPluginConfig × Heap :=
  let ar := hGetActivePlugins h m
  ((ar.1.read ar.2).map (fun plugin => { type := "local", path := plugin.pluginPath }), ar.1)

/-- `getUnavailableEnabledPlugins()` heap-level. -/
def hGetUnavailableEnabledPlugins (h : Heap) (m : HPluginManager) : List String × Heap :=
  let ar := h.alloc ((h.read m.pluginsRef).filter
    (fun plugin => plugin.enabled && plugin.status != "available"))
  ((ar.1.read ar.2).map (fun plugin => plugin.id), ar.1)

/-- `hasEnabledPlugins()` heap-level. -/
def hHasEnabledPlugins (h : Heap) (m : HPluginManager) : Bool × Heap :=
  let ar := hGetActivePlugins h m
  ((ar.1.read ar.2).length > 0, ar.1)

/-- `getEnabledCount()` heap-level. -/
def hGetEnabledCount (h : Heap) (m : HPluginManager) : Nat × Heap :=
  let ar := hGetActivePlugins h m
  ((ar.1.read ar.2).length, ar.1)

/-- `hasPlugins()` heap-level: a pure field read, no allocation. -/
def hHasPlugins (h : Heap) (m : HPluginManager) : Bool × Heap :=
  ((h.read m.pluginsRef).length > 0, h)

/-- `getPluginCommandPaths()` heap-level. -/
def hGetPluginCommandPaths (h : Heap) (m : HPluginManager) : List PluginCommandPath × Heap :=
  let ar := hGetActivePlugins h m
  ((ar.1.read ar.2).map
    (fun plugin => { pluginName := plugin.name, commandsPath := plugin.installPath }), ar.1)

/-! Concrete fixtures used by the witness theorems. -/

/-- An available plugin whose manifest path differs from its install path. -/
def wPluginA : ClaudianPlugin :=
  ⟨"alpha@m", "Alpha", "/a/.claude-plugin", "/a", true, "available"⟩

/-- A second available plugin, disabled, id sorting before nothing. -/
def wPluginB : ClaudianPlugin :=
  ⟨"beta@m", "Beta", "/b/.claude-plugin", "/b", false, "available"⟩

/-- An enabled plugin with a non-available status. -/
def wPluginU : ClaudianPlugin :=
  ⟨"upsilon@m", "Upsilon", "/u/.claude-plugin", "/u", true, "unavailable"⟩

/-- A coordinator state satisfying the enabled/membership invariant. -/
def wManager : PluginManager :=
  ⟨[wPluginA, wPluginB, wPluginU], ["alpha@m", "upsilon@m"]⟩

/-- The same active plugins as `wManager2`, loaded in the opposite order. -/
def wManager1 : PluginManager :=
  ⟨[{ wPluginB with enabled := true }, wPluginA], ["alpha@m", "beta@m"]⟩

/-- The same active plugins as `wManager1`, loaded in the opposite order. -/
def wManager2 : PluginManager :=
  ⟨[wPluginA, { wPluginB with enabled := true }], ["alpha@m", "beta@m"]⟩

/-- A call interleaving exercising all five mutating operations. -/
def wCalls : List PMCall :=
  [PMCall.load [{ wPluginA with enabled := false }, wPluginB],
   PMCall.setIds ["alpha@m", "ghost@m"],
   PMCall.toggle "beta@m",
   PMCall.enable "ghost@m",
   PMCall.disable "alpha@m",
   PMCall.toggle "beta@m",
   PMCall.load [wPluginB, wPluginU]]

/-- A one-cell heap whose single array is `wManager`'s plugin list. -/
def wHeap : Heap := ⟨[wManager.plugins]⟩

/-- Heap-model coordinator denoting `wManager` in `wHeap`. -/
def wHManager : HPluginManager := ⟨0, wManager.enabledPluginIds⟩

/-! Helper lemmas about the JS `Set<string>` model. -/

theorem contains_eq_decide (s : List String) (x : String) :
    s.contains x = decide (x ∈ s) := by
  by_cases h : x ∈ s <;> simp [h]

theorem mem_jsSetAdd {s : List String} {x y : String} :
    y ∈ jsSetAdd s x ↔ y ∈ s ∨ y = x := by
  unfold jsSetAdd
  split
  · rename_i hx
    constructor
    · exact Or.inl
    · rintro (h | rfl)
      · exact h
      · exact hx
  · simp

theorem mem_jsSetDelete {s : List String} {x y : String} :
    y ∈ jsSetDelete s x ↔ y ∈ s ∧ y ≠ x := by
  simp [jsSetDelete]

theorem contains_jsSetAdd_self (s : List String) (x : String) :
    (jsSetAdd s x).contains x = true := by
  rw [contains_eq_decide]
  simp [mem_jsSetAdd]

theorem contains_jsSetAdd_ne (s : List String) {x y : String} (h : y ≠ x) :
    (jsSetAdd s x).contains y = s.contains y := by
  rw [contains_eq_decide, contains_eq_decide]
  simp [mem_jsSetAdd, h]

theorem contains_jsSetDelete_self (s : List String) (x : String) :
    (jsSetDelete s x).contains x = false := by
  rw [contains_eq_decide]
  simp [mem_jsSetDelete]

theorem contains_jsSetDelete_ne (s : List String) {x y : String} (h : y ≠ x) :
    (jsSetDelete s x).contains y = s.contains y := by
  rw [contains_eq_decide, contains_eq_decide]
  simp [mem_jsSetDelete, h]

/-- C9: `loadPlugins` never touches the enabled-id set: whatever the prior
state and whatever snapshot the registry source returns (including an empty
one, or one naming none of the set's identifiers), the set after the call
equals the set before it. -/
theorem loadPlugins_preserves_enabled_ids (m : PluginManager) (loaded : List ClaudianPlugin) :
    (m.loadPlugins loaded).enabledPluginIds = m.enabledPluginIds := rfl

/-- C3: `getActivePluginConfigs` is one `{type := "local", path}` entry per
enabled-and-available plugin, in current list order, with `path` the manifest
path (`pluginPath` field), never the install path. -/
theorem getActivePluginConfigs_spec (m : PluginManager) :
    m.getActivePluginConfigs =
      (m.plugins.filter (fun p => p.enabled && p.status == "available")).map
        (fun p => { type := "local", path := p.pluginPath }) ∧
    m.getActivePluginConfigs.length = m.getEnabledCount ∧
    ∀ i : Nat, m.getActivePluginConfigs[i]?.map SdkPluginConfig.path =
      m.getActivePlugins[i]?.map ClaudianPlugin.pluginPath := by
  refine ⟨rfl, by simp [PluginManager.getActivePluginConfigs, PluginManager.getEnabledCount], ?_⟩
  intro i
  simp only [PluginManager.getActivePluginConfigs, List.getElem?_map, Option.map_map]
  cases m.getActivePlugins[i]? <;> rfl

/-- C6: toggling an identifier matching no loaded plugin raises nothing,
leaves the whole state unchanged and returns the enabled-id set as it was. -/
theorem togglePlugin_unknown (m : PluginManager) (x : String)
    (h : ∀ p ∈ m.plugins, p.id ≠ x) :
    m.togglePlugin x = (m, m.enabledPluginIds) := by
  have hf : m.plugins.find? (fun p => p.id == x) = none :=
    List.find?_eq_none.mpr (fun p hp => by simpa using h p hp)
  simp [PluginManager.togglePlugin, hf]

/-- Witness for C6: a concrete three-plugin coordinator and an identifier
matching none of them. -/
theorem togglePlugin_unknown_witness :
    (∀ p ∈ wManager.plugins, p.id ≠ "ghost@m") ∧
      wManager.togglePlugin "ghost@m" = (wManager, wManager.enabledPluginIds) :=
  ⟨by decide, togglePlugin_unknown wManager "ghost@m" (by decide)⟩

/-- C4: `getPluginCommandPaths` is one `{pluginName, commandsPath}` entry per
active plugin with `commandsPath` the install path, never the manifest path;
whenever an active plugin's manifest path differs from its install path, the
paths produced for it by `getPluginCommandPaths` and `getActivePluginConfigs`
differ. -/
theorem getPluginCommandPaths_spec (m : PluginManager) :
    m.getPluginCommandPaths =
      m.getActivePlugins.map
        (fun p => { pluginName := p.name, commandsPath := p.installPath }) ∧
    (∀ i : Nat, m.getPluginCommandPaths[i]?.map PluginCommandPath.commandsPath =
      m.getActivePlugins[i]?.map ClaudianPlugin.installPath) ∧
    ∀ (i : Nat) (p : ClaudianPlugin), m.getActivePlugins[i]? = some p →
      p.pluginPath ≠ p.installPath →
      m.getActivePluginConfigs[i]?.map SdkPluginConfig.path ≠
        m.getPluginCommandPaths[i]?.map PluginCommandPath.commandsPath := by
  refine ⟨rfl, ?_, ?_⟩
  · intro i
    simp only [PluginManager.getPluginCommandPaths, List.getElem?_map, Option.map_map]
    cases m.getActivePlugins[i]? <;> rfl
  · intro i p hp hne
    simp only [PluginManager.getPluginCommandPaths, PluginManager.getActivePluginConfigs,
      List.getElem?_map, Option.map_map, hp]
    simpa using hne

/-- Witness for C4: at `wManager`, the single active plugin has manifest path
`/a/.claude-plugin` and install path `/a`, and the two projections differ. -/
theorem getPluginCommandPaths_spec_witness :
    (wManager.getActivePlugins[0]? = some wPluginA ∧
      wPluginA.pluginPath ≠ wPluginA.installPath) ∧
    wManager.getActivePluginConfigs[0]?.map SdkPluginConfig.path ≠
      wManager.getPluginCommandPaths[0]?.map PluginCommandPath.commandsPath :=
  ⟨⟨by decide, by decide⟩,
    (getPluginCommandPaths_spec wManager).2.2 0 wPluginA (by decide) (by decide)⟩

/-- The join of a non-empty list is at least as long as its first element. -/
theorem length_le_joinWith (sep x : String) (xs : List String) :
    x.length ≤ (joinWith sep (x :: xs)).length := by
  cases xs with
  | nil => simp [joinWith]
  | cons y ys =>
    show x.length ≤ (x ++ sep ++ joinWith sep (y :: ys)).length
    simp [String.length_append]
    omega

/-- C7: the fingerprint is the empty string exactly when the active-plugin
count is zero. -/
theorem getPluginsKey_empty_iff (m : PluginManager) :
    (m.getPluginsKey = "") ↔ m.getEnabledCount = 0 := by
  have hlen : (m.getActivePlugins.mergeSort idLe).length = m.getActivePlugins.length :=
    (List.mergeSort_perm m.getActivePlugins idLe).length_eq
  simp only [PluginManager.getPluginsKey, PluginManager.getEnabledCount]
  cases hS : m.getActivePlugins.mergeSort idLe with
  | nil =>
    rw [hS] at hlen
    simp [← hlen]
  | cons p ps =>
    rw [hS] at hlen
    rw [if_neg (by simp)]
    constructor
    · intro hkey
      exfalso
      have h1 := length_le_joinWith "|" (p.id ++ ":" ++ p.pluginPath)
        (ps.map (fun plugin => plugin.id ++ ":" ++ plugin.pluginPath))
      rw [show ((p :: ps).map (fun plugin => plugin.id ++ ":" ++ plugin.pluginPath)) =
        (p.id ++ ":" ++ p.pluginPath) ::
          ps.map (fun plugin => plugin.id ++ ":" ++ plugin.pluginPath) from rfl] at hkey
      rw [hkey] at h1
      have hcolon : (":" : String).length = 1 := rfl
      have hempty : ("" : String).length = 0 := rfl
      simp [String.length_append, hcolon, hempty] at h1
    · intro hcount
      rw [hcount] at hlen
      simp at hlen

/-! Facts about the `getPluginsKey` comparator and sort. -/

theorem idLe_eq_true_iff (a b : ClaudianPlugin) : idLe a b = true ↔ a.id ≤ b.id := by
  unfold idLe localeCompare
  rcases lt_trichotomy a.id b.id with h | h | h
  · simp [h, le_of_lt h]
  · simp [h]
  · rw [if_neg (lt_asymm h), if_pos h]
    simp [not_le.mpr h]

theorem idLe_trans (a b c : ClaudianPlugin) (hab : idLe a b = true) (hbc : idLe b c = true) :
    idLe a c = true :=
  (idLe_eq_true_iff a c).mpr
    (le_trans ((idLe_eq_true_iff a b).mp hab) ((idLe_eq_true_iff b c).mp hbc))

theorem idLe_total (a b : ClaudianPlugin) : (idLe a b || idLe b a) = true := by
  rcases le_total a.id b.id with h | h
  · simp [(idLe_eq_true_iff a b).mpr h]
  · simp [(idLe_eq_true_iff b a).mpr h]

/-- With duplicate-free ids, the sorted active list is strictly increasing. -/
theorem mergeSort_strict_sorted (l : List ClaudianPlugin)
    (hnd : (l.map (fun p => p.id)).Nodup) :
    (l.mergeSort idLe).Pairwise (fun a b => a.id < b.id) := by
  have hs := List.sorted_mergeSort idLe_trans idLe_total l
  have hnd2 : ((l.mergeSort idLe).map (fun p => p.id)).Nodup :=
    (((List.mergeSort_perm l idLe).map (fun p => p.id)).nodup_iff).mpr hnd
  have hne : (l.mergeSort idLe).Pairwise (fun a b => a.id ≠ b.id) :=
    List.pairwise_map.mp hnd2
  exact (hs.and hne).imp
    (fun hab => lt_of_le_of_ne ((idLe_eq_true_iff _ _).mp hab.1) hab.2)

/-- Two permuted lists with duplicate-free ids sort to the same list. -/
theorem mergeSort_eq_of_perm (l l2 : List ClaudianPlugin) (hperm : l.Perm l2)
    (hnd : (l.map (fun p => p.id)).Nodup) :
    l.mergeSort idLe = l2.mergeSort idLe := by
  have hnd2 : (l2.map (fun p => p.id)).Nodup := ((hperm.map _).nodup_iff).mp hnd
  have h1 := mergeSort_strict_sorted l hnd
  have h2 := mergeSort_strict_sorted l2 hnd2
  have hp : (l.mergeSort idLe).Perm (l2.mergeSort idLe) :=
    (List.mergeSort_perm l idLe).trans (hperm.trans (List.mergeSort_perm l2 idLe).symm)
  haveI : IsAntisymm ClaudianPlugin (fun a b => a.id < b.id) :=
    ⟨fun a b hab hba => absurd hab (lt_asymm hba)⟩
  exact List.eq_of_perm_of_sorted hp h1 h2

/-- C2: `getPluginsKey` computes exactly the spec's algorithm — active
plugins sorted by identifier (locale-aware comparison modelled as code-point
order), rendered as `id:pluginPath` and joined with `|` — and two coordinator
states whose active plugins are the same collection (ids unique), in whatever
internal order, produce the identical key. -/
theorem getPluginsKey_spec_and_stable :
    (∀ m : PluginManager, m.getPluginsKey = getPluginsKeySpec m) ∧
    ∀ m m2 : PluginManager, m.getActivePlugins.Perm m2.getActivePlugins →
      (m.getActivePlugins.map (fun p => p.id)).Nodup →
      m.getPluginsKey = m2.getPluginsKey := by
  constructor
  · intro m
    simp only [PluginManager.getPluginsKey, getPluginsKeySpec]
    cases hS : m.getActivePlugins.mergeSort idLe with
    | nil => simp [joinWith]
    | cons p ps => rw [if_neg (by simp)]
  · intro m m2 hperm hnd
    have heq : m.getActivePlugins.mergeSort idLe = m2.getActivePlugins.mergeSort idLe :=
      mergeSort_eq_of_perm _ _ hperm hnd
    simp only [PluginManager.getPluginsKey]
    rw [heq]

/-- Witness for C2: `wManager1` and `wManager2` hold the same two active
plugins in opposite load orders and produce the same key. -/
theorem getPluginsKey_stable_witness :
    (wManager1.getActivePlugins.Perm wManager2.getActivePlugins ∧
      (wManager1.getActivePlugins.map (fun p => p.id)).Nodup) ∧
    wManager1.getPluginsKey = wManager2.getPluginsKey :=
  ⟨⟨by decide, by decide⟩,
    getPluginsKey_spec_and_stable.2 wManager1 wManager2 (by decide) (by decide)⟩

/-- C8: under the enabled/membership invariant, `getUnavailableEnabledPlugins`
reports exactly the identifiers that are in the enabled-id set and carried by
some loaded plugin of non-`"available"` status; enabled identifiers with no
loaded plugin are never reported. -/
theorem getUnavailableEnabledPlugins_spec (m : PluginManager)
    (hinv : EnabledMatchesSet m) (x : String) :
    x ∈ m.getUnavailableEnabledPlugins ↔
      (x ∈ m.enabledPluginIds ∧ ∃ p ∈ m.plugins, p.id = x ∧ p.status ≠ "available") := by
  simp only [PluginManager.getUnavailableEnabledPlugins, List.mem_map, List.mem_filter,
    Bool.and_eq_true, bne_iff_ne, ne_eq]
  constructor
  · rintro ⟨p, ⟨hp, he, hst⟩, rfl⟩
    have hmem : p.id ∈ m.enabledPluginIds := by
      have := hinv p hp
      rw [contains_eq_decide] at this
      rw [he] at this
      exact of_decide_eq_true this.symm
    exact ⟨hmem, p, hp, rfl, hst⟩
  · rintro ⟨hxs, p, hp, rfl, hst⟩
    refine ⟨p, ⟨hp, ?_, hst⟩, rfl⟩
    have := hinv p hp
    rw [contains_eq_decide] at this
    rw [this]
    exact decide_eq_true hxs

/-- Witness for C8: at `wManager` (which satisfies the invariant), the
enabled-but-unavailable plugin `upsilon@m` is reported. -/
theorem getUnavailableEnabledPlugins_spec_witness :
    EnabledMatchesSet wManager ∧
      ("upsilon@m" ∈ wManager.getUnavailableEnabledPlugins ↔
        ("upsilon@m" ∈ wManager.enabledPluginIds ∧
          ∃ p ∈ wManager.plugins, p.id = "upsilon@m" ∧ p.status ≠ "available")) :=
  ⟨by decide, getUnavailableEnabledPlugins_spec wManager (by decide) "upsilon@m"⟩

/-! Behaviour of `togglePlugin`'s in-place flag mutation. -/

theorem map_id_setEnabledAtFirstMatch (ps : List ClaudianPlugin) (x : String) (e : Bool) :
    (setEnabledAtFirstMatch ps x e).map (fun p => p.id) = ps.map (fun p => p.id) := by
  induction ps with
  | nil => rfl
  | cons p ps ih =>
    by_cases h : p.id == x
    · simp [setEnabledAtFirstMatch, h]
    · simp [setEnabledAtFirstMatch, h, ih]

/-- The `find` that located the plugin finds the same (re-flagged) entry after
the in-place mutation. -/
theorem find?_setEnabledAtFirstMatch (ps : List ClaudianPlugin) (x : String) (e : Bool)
    {p : ClaudianPlugin} (h : ps.find? (fun q => q.id == x) = some p) :
    (setEnabledAtFirstMatch ps x e).find? (fun q => q.id == x) =
      some { p with enabled := e } := by
  induction ps with
  | nil => simp at h
  | cons q ps ih =>
    by_cases hq : q.id = x
    · rw [List.find?_cons_of_pos _ (by simpa using hq)] at h
      obtain rfl : q = p := by injection h
      rw [show setEnabledAtFirstMatch (q :: ps) x e = { q with enabled := e } :: ps by
        simp [setEnabledAtFirstMatch, hq]]
      exact List.find?_cons_of_pos _ (by simpa using hq)
    · rw [List.find?_cons_of_neg _ (by simpa using hq)] at h
      rw [show setEnabledAtFirstMatch (q :: ps) x e = q :: setEnabledAtFirstMatch ps x e by
        simp [setEnabledAtFirstMatch, hq]]
      rw [List.find?_cons_of_neg _ (by simpa using hq)]
      exact ih h

/-- C5: toggling the same identifier twice (no load in between) restores the
enabled-id set's membership for that identifier, and neither call changes
membership for any other identifier.  The hypothesis is the coupling
invariant, which holds in every reachable state. -/
theorem togglePlugin_twice (m : PluginManager) (x : String) (hinv : EnabledMatchesSet m) :
    (x ∈ ((m.togglePlugin x).1.togglePlugin x).1.enabledPluginIds ↔
      x ∈ m.enabledPluginIds) ∧
    ∀ y, y ≠ x →
      ((y ∈ (m.togglePlugin x).1.enabledPluginIds ↔ y ∈ m.enabledPluginIds) ∧
       (y ∈ ((m.togglePlugin x).1.togglePlugin x).1.enabledPluginIds ↔
         y ∈ m.enabledPluginIds)) := by
  cases hf : m.plugins.find? (fun p => p.id == x) with
  | none =>
    simp [PluginManager.togglePlugin, hf]
  | some plugin =>
    have hid : plugin.id = x := by simpa using List.find?_some hf
    have hmem := List.mem_of_find?_eq_some hf
    have hx := hinv plugin hmem
    rw [contains_eq_decide, hid] at hx
    by_cases he : plugin.enabled = true
    · -- first call deletes x, second call re-adds it
      have hxs : x ∈ m.enabledPluginIds := of_decide_eq_true (he ▸ hx).symm
      have h1 : (m.togglePlugin x).1 =
          ⟨setEnabledAtFirstMatch m.plugins x false, jsSetDelete m.enabledPluginIds x⟩ := by
        simp [PluginManager.togglePlugin, hf, he]
      have hf2 := find?_setEnabledAtFirstMatch m.plugins x false hf
      have h2 : ((m.togglePlugin x).1.togglePlugin x).1.enabledPluginIds =
          jsSetAdd (jsSetDelete m.enabledPluginIds x) x := by
        rw [h1]
        simp [PluginManager.togglePlugin, hf2]
      refine ⟨?_, fun y hy => ⟨?_, ?_⟩⟩
      · rw [h2]
        simp [mem_jsSetAdd, hxs]
      · rw [h1]
        simp [mem_jsSetDelete, hy]
      · rw [h2]
        simp [mem_jsSetAdd, mem_jsSetDelete, hy]
    · -- first call adds x, second call deletes it
      have hb : plugin.enabled = false := Bool.eq_false_iff.mpr he
      have hxs : x ∉ m.enabledPluginIds := by
        intro hcontra
        rw [hb] at hx
        simp [decide_eq_true hcontra] at hx
      have h1 : (m.togglePlugin x).1 =
          ⟨setEnabledAtFirstMatch m.plugins x true, jsSetAdd m.enabledPluginIds x⟩ := by
        simp [PluginManager.togglePlugin, hf, hb]
      have hf2 := find?_setEnabledAtFirstMatch m.plugins x true hf
      have h2 : ((m.togglePlugin x).1.togglePlugin x).1.enabledPluginIds =
          jsSetDelete (jsSetAdd m.enabledPluginIds x) x := by
        rw [h1]
        simp [PluginManager.togglePlugin, hf2]
      refine ⟨?_, fun y hy => ⟨?_, ?_⟩⟩
      · rw [h2]
        simp [mem_jsSetDelete, hxs]
      · rw [h1]
        simp [mem_jsSetAdd, hy]
      · rw [h2]
        simp [mem_jsSetAdd, mem_jsSetDelete, hy]

/-- Witness for C5: double toggle of `beta@m` on `wManager` restores its
membership, and `alpha@m`'s membership survives both calls. -/
theorem togglePlugin_twice_witness :
    EnabledMatchesSet wManager ∧
      ("beta@m" ∈ ((wManager.togglePlugin "beta@m").1.togglePlugin "beta@m").1.enabledPluginIds ↔
        "beta@m" ∈ wManager.enabledPluginIds) :=
  ⟨by decide, (togglePlugin_twice wManager "beta@m" (by decide)).1⟩

/-! Preservation of the coupling invariant by every mutating call (C1). -/

/-- Re-stamping the first matching entry keeps the invariant, provided the new
set agrees with the new flag at `x` and with the old set elsewhere, and ids are
duplicate-free. -/
theorem setEnabledAtFirstMatch_invariant (ps : List ClaudianPlugin)
    (s s2 : List String) (x : String) (e : Bool)
    (hinv : ∀ p ∈ ps, p.enabled = s.contains p.id)
    (hnd : (ps.map (fun p => p.id)).Nodup)
    (hx : s2.contains x = e)
    (hother : ∀ y, y ≠ x → s2.contains y = s.contains y) :
    ∀ p ∈ setEnabledAtFirstMatch ps x e, p.enabled = s2.contains p.id := by
  induction ps with
  | nil => intro p hp; cases hp
  | cons q ps ih =>
    have hndq : q.id ∉ ps.map (fun p => p.id) := (List.nodup_cons.mp hnd).1
    have hndps : (ps.map (fun p => p.id)).Nodup := (List.nodup_cons.mp hnd).2
    by_cases hq : q.id = x
    · rw [show setEnabledAtFirstMatch (q :: ps) x e = { q with enabled := e } :: ps by
        simp [setEnabledAtFirstMatch, hq]]
      intro p hp
      rcases List.mem_cons.mp hp with rfl | hp2
      · show e = s2.contains q.id
        rw [hq, hx]
      · have hpx : p.id ≠ x := by
          intro hcontra
          exact hndq (hq ▸ hcontra ▸ List.mem_map_of_mem (fun p => p.id) hp2)
        rw [hother p.id hpx]
        exact hinv p (List.mem_cons_of_mem q hp2)
    · rw [show setEnabledAtFirstMatch (q :: ps) x e = q :: setEnabledAtFirstMatch ps x e by
        simp [setEnabledAtFirstMatch, hq]]
      intro p hp
      rcases List.mem_cons.mp hp with rfl | hp2
      · rw [hother p.id hq]
        exact hinv p (List.mem_cons_self p ps)
      · exact ih (fun r hr => hinv r (List.mem_cons_of_mem q hr)) hndps p hp2

/-- One mutating call preserves the invariant and id uniqueness. -/
theorem applyCall_preserves (m : PluginManager) (c : PMCall)
    (hinv : EnabledMatchesSet m) (hnd : IdsNodup m) (hok : callOk c) :
    EnabledMatchesSet (m.applyCall c) ∧ IdsNodup (m.applyCall c) := by
  cases c with
  | setIds ids =>
    constructor
    · intro p hp
      simp only [PluginManager.applyCall, PluginManager.setEnabledPluginIds, List.mem_map] at hp
      obtain ⟨q, _, rfl⟩ := hp
      rfl
    · show (List.map _ (m.plugins.map _)).Nodup
      simpa [List.map_map, Function.comp] using hnd
  | load loaded =>
    constructor
    · intro p hp
      simp only [PluginManager.applyCall, PluginManager.loadPlugins, List.mem_map] at hp
      obtain ⟨q, _, rfl⟩ := hp
      rfl
    · show (List.map _ (loaded.map _)).Nodup
      simpa [List.map_map, Function.comp] using hok
  | toggle pluginId =>
    show EnabledMatchesSet (m.togglePlugin pluginId).1 ∧ IdsNodup (m.togglePlugin pluginId).1
    cases hf : m.plugins.find? (fun p => p.id == pluginId) with
    | none => simpa [PluginManager.togglePlugin, hf] using ⟨hinv, hnd⟩
    | some plugin =>
      by_cases he : plugin.enabled = true
      · have h1 : (m.togglePlugin pluginId).1 =
            ⟨setEnabledAtFirstMatch m.plugins pluginId false,
              jsSetDelete m.enabledPluginIds pluginId⟩ := by
          simp [PluginManager.togglePlugin, hf, he]
        rw [h1]
        exact ⟨setEnabledAtFirstMatch_invariant m.plugins m.enabledPluginIds _ pluginId false
            hinv hnd (contains_jsSetDelete_self _ _)
            (fun y hy => contains_jsSetDelete_ne _ hy),
          by simpa [IdsNodup] using
            (map_id_setEnabledAtFirstMatch m.plugins pluginId false).symm ▸ hnd⟩
      · have h1 : (m.togglePlugin pluginId).1 =
            ⟨setEnabledAtFirstMatch m.plugins pluginId true,
              jsSetAdd m.enabledPluginIds pluginId⟩ := by
          simp [PluginManager.togglePlugin, hf, Bool.eq_false_iff.mpr he]
        rw [h1]
        exact ⟨setEnabledAtFirstMatch_invariant m.plugins m.enabledPluginIds _ pluginId true
            hinv hnd (contains_jsSetAdd_self _ _)
            (fun y hy => contains_jsSetAdd_ne _ hy),
          by simpa [IdsNodup] using
            (map_id_setEnabledAtFirstMatch m.plugins pluginId true).symm ▸ hnd⟩
  | enable pluginId =>
    show EnabledMatchesSet (m.enablePlugin pluginId).1 ∧ IdsNodup (m.enablePlugin pluginId).1
    cases hf : m.plugins.find? (fun p => p.id == pluginId) with
    | none => simpa [PluginManager.enablePlugin, hf] using ⟨hinv, hnd⟩
    | some plugin =>
      by_cases he : plugin.enabled = true
      · have h1 : (m.enablePlugin pluginId).1 = m := by
          simp [PluginManager.enablePlugin, hf, he]
        rw [h1]
        exact ⟨hinv, hnd⟩
      · have h1 : (m.enablePlugin pluginId).1 =
            ⟨setEnabledAtFirstMatch m.plugins pluginId true,
              jsSetAdd m.enabledPluginIds pluginId⟩ := by
          simp [PluginManager.enablePlugin, hf, Bool.eq_false_iff.mpr he]
        rw [h1]
        exact ⟨setEnabledAtFirstMatch_invariant m.plugins m.enabledPluginIds _ pluginId true
            hinv hnd (contains_jsSetAdd_self _ _)
            (fun y hy => contains_jsSetAdd_ne _ hy),
          by simpa [IdsNodup] using
            (map_id_setEnabledAtFirstMatch m.plugins pluginId true).symm ▸ hnd⟩
  | disable pluginId =>
    show EnabledMatchesSet (m.disablePlugin pluginId).1 ∧ IdsNodup (m.disablePlugin pluginId).1
    cases hf : m.plugins.find? (fun p => p.id == pluginId) with
    | none => simpa [PluginManager.disablePlugin, hf] using ⟨hinv, hnd⟩
    | some plugin =>
      by_cases he : plugin.enabled = true
      · have h1 : (m.disablePlugin pluginId).1 =
            ⟨setEnabledAtFirstMatch m.plugins pluginId false,
              jsSetDelete m.enabledPluginIds pluginId⟩ := by
          simp [PluginManager.disablePlugin, hf, he]
        rw [h1]
        exact ⟨setEnabledAtFirstMatch_invariant m.plugins m.enabledPluginIds _ pluginId false
            hinv hnd (contains_jsSetDelete_self _ _)
            (fun y hy => contains_jsSetDelete_ne _ hy),
          by simpa [IdsNodup] using
            (map_id_setEnabledAtFirstMatch m.plugins pluginId false).symm ▸ hnd⟩
      · have h1 : (m.disablePlugin pluginId).1 = m := by
          simp [PluginManager.disablePlugin, hf, Bool.eq_false_iff.mpr he]
        rw [h1]
        exact ⟨hinv, hnd⟩

/-- A call sequence from any good state lands in a good state. -/
theorem run_preserves (calls : List PMCall) :
    ∀ m : PluginManager, EnabledMatchesSet m → IdsNodup m → (∀ c ∈ calls, callOk c) →
      EnabledMatchesSet (m.run calls) ∧ IdsNodup (m.run calls) := by
  induction calls with
  | nil => exact fun m h1 h2 _ => ⟨h1, h2⟩
  | cons c cs ih =>
    intro m h1 h2 hok
    have step := applyCall_preserves m c h1 h2 (hok c (List.mem_cons_self c cs))
    exact ih (m.applyCall c) step.1 step.2 (fun d hd => hok d (List.mem_cons_of_mem c hd))

/-- C1: along every interleaving of `setEnabledPluginIds`, `loadPlugins`,
`togglePlugin`, `enablePlugin` and `disablePlugin` from the fresh coordinator
(registry snapshots carrying unique ids, per the spec's Plugin invariant),
every loaded plugin's `enabled` flag equals membership of its id in the
enabled-id set.  Quantifying over all call sequences makes the property hold
after each call of any interleaving. -/
theorem enabled_matches_set_invariant (calls : List PMCall)
    (hok : ∀ c ∈ calls, callOk c) :
    EnabledMatchesSet (PluginManager.emptyManager.run calls) :=
  (run_preserves calls PluginManager.emptyManager
    (fun p hp => absurd hp (List.not_mem_nil p))
    (by simp [IdsNodup, PluginManager.emptyManager]) hok).1

/-- Witness for C1: a seven-call interleaving exercising all five operations. -/
theorem enabled_matches_set_invariant_witness :
    (∀ c ∈ wCalls, callOk c) ∧
      EnabledMatchesSet (PluginManager.emptyManager.run wCalls) :=
  ⟨by decide, enabled_matches_set_invariant wCalls (by decide)⟩

/-! Heap lemmas for the aliasing claim about the query methods. -/

theorem Heap.read_alloc_of_lt (h : Heap) (a : List ClaudianPlugin) {r : Nat}
    (hr : r < h.cells.length) : (h.alloc a).1.read r = h.read r := by
  simp [Heap.alloc, Heap.read, List.getElem?_append, hr]

theorem Heap.read_alloc_self (h : Heap) (a : List ClaudianPlugin) :
    (h.alloc a).1.read (h.alloc a).2 = a := by
  simp [Heap.alloc, Heap.read, List.getElem?_concat_length]

theorem Heap.read_write_ne (h : Heap) {r r2 : Nat} (a : List ClaudianPlugin)
    (hne : r ≠ r2) : (h.write r a).read r2 = h.read r2 := by
  simp [Heap.write, Heap.read, List.getElem?_set_ne hne]

theorem Heap.read_write_self (h : Heap) {r : Nat} (a : List ClaudianPlugin)
    (hr : r < h.cells.length) : (h.write r a).read r = a := by
  simp [Heap.read, Heap.write, List.getElem?_set_self hr]

theorem Heap.alloc_cells_length (h : Heap) (a : List ClaudianPlugin) :
    (h.alloc a).1.cells.length = h.cells.length + 1 := by
  simp [Heap.alloc]

/-- C10: no query method writes to the coordinator's stored plugins array.
After each of the eight queries the stored array reads back unchanged (so the
list keeps its load order — `getPluginsKey`'s in-place `sort` lands only on
the fresh array its `filter` allocated), every query returns the pure-model
value, and even writing to the fresh copy `getPlugins` returns leaves the
stored array untouched. -/
theorem queries_leave_state_unchanged (h : Heap) (m : HPluginManager)
    (hv : h.validFor m) :
    ((hGetPluginsKey h m).2.read m.pluginsRef = h.read m.pluginsRef ∧
      (hGetPluginsKey h m).1 = (m.denote h).getPluginsKey) ∧
    ((hGetPlugins h m).1.read (hGetPlugins h m).2 = (m.denote h).getPlugins ∧
      ∀ a : List ClaudianPlugin,
        ((hGetPlugins h m).1.write (hGetPlugins h m).2 a).read m.pluginsRef =
          h.read m.pluginsRef) ∧
    ((hGetActivePlugins h m).1.read m.pluginsRef = h.read m.pluginsRef ∧
      (hGetActivePlugins h m).1.read (hGetActivePlugins h m).2 =
        (m.denote h).getActivePlugins) ∧
    ((hGetActivePluginConfigs h m).2.read m.pluginsRef = h.read m.pluginsRef ∧
      (hGetActivePluginConfigs h m).1 = (m.denote h).getActivePluginConfigs) ∧
    ((hGetUnavailableEnabledPlugins h m).2.read m.pluginsRef = h.read m.pluginsRef ∧
      (hGetUnavailableEnabledPlugins h m).1 = (m.denote h).getUnavailableEnabledPlugins) ∧
    ((hHasEnabledPlugins h m).2.read m.pluginsRef = h.read m.pluginsRef ∧
      (hHasEnabledPlugins h m).1 = (m.denote h).hasEnabledPlugins) ∧
    ((hGetEnabledCount h m).2.read m.pluginsRef = h.read m.pluginsRef ∧
      (hGetEnabledCount h m).1 = (m.denote h).getEnabledCount) ∧
    ((hHasPlugins h m).2.read m.pluginsRef = h.read m.pluginsRef ∧
      (hHasPlugins h m).1 = (m.denote h).hasPlugins) ∧
    ((hGetPluginCommandPaths h m).2.read m.pluginsRef = h.read m.pluginsRef ∧
      (hGetPluginCommandPaths h m).1 = (m.denote h).getPluginCommandPaths) := by
  have hvlt : m.pluginsRef < h.cells.length := hv
  have hfresh : h.cells.length ≠ m.pluginsRef := (Nat.ne_of_lt hvlt).symm
  have hsucc : h.cells.length < h.cells.length + 1 := Nat.lt_succ_self _
  refine ⟨⟨?_, ?_⟩, ⟨?_, ?_⟩, ⟨?_, ?_⟩, ⟨?_, ?_⟩, ⟨?_, ?_⟩, ⟨?_, ?_⟩, ⟨?_, ?_⟩, ⟨?_, ?_⟩,
    ⟨?_, ?_⟩⟩
  · simp only [hGetPluginsKey, hGetActivePlugins]
    exact (Heap.read_write_ne _ _ hfresh).trans (Heap.read_alloc_of_lt _ _ hvlt)
  · simp only [hGetPluginsKey, hGetActivePlugins, Heap.read_alloc_self]
    rw [Heap.read_write_self]
    · rfl
    · rw [Heap.alloc_cells_length]
      exact hsucc
  · simp only [hGetPlugins, Heap.read_alloc_self]
    rfl
  · intro a
    simp only [hGetPlugins]
    exact (Heap.read_write_ne _ _ hfresh).trans (Heap.read_alloc_of_lt _ _ hvlt)
  · simp only [hGetActivePlugins]
    exact Heap.read_alloc_of_lt _ _ hvlt
  · simp only [hGetActivePlugins, Heap.read_alloc_self]
    rfl
  · simp only [hGetActivePluginConfigs, hGetActivePlugins]
    exact Heap.read_alloc_of_lt _ _ hvlt
  · simp only [hGetActivePluginConfigs, hGetActivePlugins, Heap.read_alloc_self]
    rfl
  · simp only [hGetUnavailableEnabledPlugins]
    exact Heap.read_alloc_of_lt _ _ hvlt
  · simp only [hGetUnavailableEnabledPlugins, Heap.read_alloc_self]
    rfl
  · simp only [hHasEnabledPlugins, hGetActivePlugins]
    exact Heap.read_alloc_of_lt _ _ hvlt
  · simp only [hHasEnabledPlugins, hGetActivePlugins, Heap.read_alloc_self]
    rfl
  · simp only [hGetEnabledCount, hGetActivePlugins]
    exact Heap.read_alloc_of_lt _ _ hvlt
  · simp only [hGetEnabledCount, hGetActivePlugins, Heap.read_alloc_self]
    rfl
  · rfl
  · rfl
  · simp only [hGetPluginCommandPaths, hGetActivePlugins]
    exact Heap.read_alloc_of_lt _ _ hvlt
  · simp only [hGetPluginCommandPaths, hGetActivePlugins, Heap.read_alloc_self]
    rfl

/-- Witness for C10: on a concrete one-cell heap, the fingerprint query leaves
the stored array unchanged and agrees with the pure model. -/
theorem queries_leave_state_unchanged_witness :
    wHeap.validFor wHManager ∧
      ((hGetPluginsKey wHeap wHManager).2.read wHManager.pluginsRef =
          wHeap.read wHManager.pluginsRef ∧
        (hGetPluginsKey wHeap wHManager).1 = (wHManager.denote wHeap).getPluginsKey) :=
  ⟨by decide, (queries_leave_state_unchanged wHeap wHManager (by decide)).1⟩
